import Mathlib

/-!
# HackStone FIM agent — verification of the spec against the code

A shallow embedding of the HackStone file-integrity-monitoring agent
(`fim_agent.py`, `fim_agent/hackstone_client.py`, `fim_agent/main.py`,
`server.py`) in Lean 4, together with proofs settling the frozen claims
about it.

Machine integers are modelled as `Nat` with explicit reduction modulo
`2^32` where the SHA-256 compression function overflows; bytes are `Nat`
values below 256; Python dictionaries are association lists; fallible
operations return `Option`.
-/

/-! ## SHA-256 (as used by `hashlib.sha256` in `fim_agent.py`)

A byte-level implementation of FIPS 180-4 SHA-256 over `List Nat`
(each entry a byte), producing the lowercase hex digest exactly as
Python's `hexdigest()` does.  All word arithmetic is `Nat` reduced
modulo `2 ^ 32`. -/

namespace Sha256

/-- Word arithmetic modulus: `2 ^ 32`. -/
def m32 : Nat := 4294967296

/-- Addition modulo `2 ^ 32`. -/
def add32 (a b : Nat) : Nat := (a + b) % m32

/-- Right rotation of a 32-bit word by `k` places. -/
def rotr (k w : Nat) : Nat := ((w >>> k) ||| (w <<< (32 - k))) % m32

/-- Bitwise complement of a 32-bit word. -/
def not32 (w : Nat) : Nat := 4294967295 ^^^ w

/-- The `Ch` function of FIPS 180-4. -/
def ch (x y z : Nat) : Nat := (x &&& y) ^^^ (not32 x &&& z)

/-- The `Maj` function of FIPS 180-4. -/
def maj (x y z : Nat) : Nat := (x &&& y) ^^^ (x &&& z) ^^^ (y &&& z)

/-- Big sigma-0. -/
def bsig0 (x : Nat) : Nat := rotr 2 x ^^^ rotr 13 x ^^^ rotr 22 x

/-- Big sigma-1. -/
def bsig1 (x : Nat) : Nat := rotr 6 x ^^^ rotr 11 x ^^^ rotr 25 x

/-- Small sigma-0. -/
def ssig0 (x : Nat) : Nat := rotr 7 x ^^^ rotr 18 x ^^^ (x >>> 3)

/-- Small sigma-1. -/
def ssig1 (x : Nat) : Nat := rotr 17 x ^^^ rotr 19 x ^^^ (x >>> 10)

/-- The 64 round constants of FIPS 180-4 section 4.2.2 (decimal). -/
def K : List Nat :=
  [1116352408, 1899447441, 3049323471, 3921009573, 961987163,
   1508970993, 2453635748, 2870763221, 3624381080, 310598401,
   607225278, 1426881987, 1925078388, 2162078206, 2614888103,
   3248222580, 3835390401, 4022224774, 264347078, 604807628,
   770255983, 1249150122, 1555081692, 1996064986, 2554220882,
   2821834349, 2952996808, 3210313671, 3336571891, 3584528711,
   113926993, 338241895, 666307205, 773529912, 1294757372,
   1396182291, 1695183700, 1986661051, 2177026350, 2456956037,
   2730485921, 2820302411, 3259730800, 3345764771, 3516065817,
   3600352804, 4094571909, 275423344, 430227734, 506948616,
   659060556, 883997877, 958139571, 1322822218, 1537002063,
   1747873779, 1955562222, 2024104815, 2227730452, 2361852424,
   2428436474, 2756734187, 3204031479, 3329325298]

/-- The initial hash value of FIPS 180-4 section 5.3.3 (decimal). -/
def H0 : List Nat :=
  [1779033703, 3144134277, 1013904242, 2773480762,
   1359893119, 2600822924, 528734635, 1541459225]

/-- Big-endian bytes of a value, `n` bytes wide (most significant first). -/
def beBytes : Nat → Nat → List Nat
  | 0, _ => []
  | n + 1, v => (v >>> (8 * n)) % 256 :: beBytes n v

/-- Pad a message per FIPS 180-4: append `0x80`, zero bytes to 56 mod 64,
then the bit length as 8 big-endian bytes. -/
def pad (msg : List Nat) : List Nat :=
  let len := msg.length
  let zeros := (55 + 64 - len % 64) % 64
  msg ++ 0x80 :: List.replicate zeros 0 ++ beBytes 8 (8 * len)

/-- Split a padded message into 64-byte blocks (structural recursion on a
fuel argument so the definition evaluates inside the kernel). -/
def chunksAux : Nat → List Nat → List (List Nat)
  | 0, _ => []
  | _ + 1, [] => []
  | fuel + 1, l => l.take 64 :: chunksAux fuel (l.drop 64)

/-- 64-byte blocks of a list. -/
def chunks (l : List Nat) : List (List Nat) := chunksAux l.length l

/-- The 16 initial 32-bit words of one block, big-endian. -/
def blockWords : List Nat → List Nat
  | b0 :: b1 :: b2 :: b3 :: rest =>
      (((b0 <<< 8 ||| b1) <<< 8 ||| b2) <<< 8 ||| b3) :: blockWords rest
  | _ => []

/-- Extend 16 words to the 64-word message schedule. -/
def schedule (ws : List Nat) : List Nat :=
  (List.range 48).foldl
    (fun w i =>
      w ++ [add32 (add32 (ssig1 (w.getD (i + 14) 0)) (w.getD (i + 9) 0))
                  (add32 (ssig0 (w.getD (i + 1) 0)) (w.getD i 0))])
    ws

/-- One round of the compression function. -/
def round (st : List Nat) (kw : Nat × Nat) : List Nat :=
  match st with
  | [a, b, c, d, e, f, g, h] =>
      let t1 := add32 (add32 (add32 h (bsig1 e)) (add32 (ch e f g) kw.1)) kw.2
      let t2 := add32 (bsig0 a) (maj a b c)
      [add32 t1 t2, a, b, c, add32 d t1, e, f, g]
  | st => st

/-- Compress one 64-byte block into the running hash state. -/
def compress (h : List Nat) (block : List Nat) : List Nat :=
  let w := schedule (blockWords block)
  let st := (K.zip w).foldl round h
  (h.zip st).map fun p => add32 p.1 p.2

/-- The eight 32-bit hash words of a byte message. -/
def hashWords (msg : List Nat) : List Nat :=
  (chunks (pad msg)).foldl compress H0

/-- A hex digit as a lowercase character. -/
def hexChar (n : Nat) : Char :=
  if n < 10 then Char.ofNat (48 + n) else Char.ofNat (87 + n)

/-- A 32-bit word as 8 lowercase hex characters. -/
def wordHex (w : Nat) : List Char :=
  (List.range 8).map fun i => hexChar ((w >>> (4 * (7 - i))) % 16)

/-- SHA-256 lowercase hex digest of a byte message, as Python's
`sha256(...).hexdigest()` returns it. -/
def sha256Hex (msg : List Nat) : String :=
  String.mk ((hashWords msg).foldr (fun w acc => wordHex w ++ acc) [])

end Sha256

/-! ## UTF-8 encoding (Python's `str.encode("utf-8")`) -/

/-- UTF-8 bytes of one code point. -/
def utf8Char (c : Char) : List Nat :=
  let n := c.toNat
  if n < 0x80 then [n]
  else if n < 0x800 then [0xc0 ||| (n >>> 6), 0x80 ||| (n &&& 0x3f)]
  else if n < 0x10000 then
    [0xe0 ||| (n >>> 12), 0x80 ||| ((n >>> 6) &&& 0x3f), 0x80 ||| (n &&& 0x3f)]
  else
    [0xf0 ||| (n >>> 18), 0x80 ||| ((n >>> 12) &&& 0x3f),
     0x80 ||| ((n >>> 6) &&& 0x3f), 0x80 ||| (n &&& 0x3f)]

/-- UTF-8 bytes of a string (`s.encode("utf-8")`). -/
def utf8Bytes (s : String) : List Nat :=
  s.data.foldr (fun c acc => utf8Char c ++ acc) []

/-! ## JSON string output (Python's `json.dumps` with default options)

Only the output side of `json` is embedded: the agent serializes events
with `json.dumps(..., sort_keys=True)` (default separators, the default
`ensure_ascii=True`).  Key order for the fixed event dictionary is the
sorted field-name order. -/

/-- Four lowercase hex digits of a value below `2 ^ 16`. -/
def hex4 (n : Nat) : List Char :=
  [Sha256.hexChar ((n >>> 12) % 16), Sha256.hexChar ((n >>> 8) % 16),
   Sha256.hexChar ((n >>> 4) % 16), Sha256.hexChar (n % 16)]

/-- `json.dumps` escaping of one character under `ensure_ascii=True`:
backslash, quote and the short control escapes specially, every other
character outside `0x20`–`0x7e` as `\uXXXX` (surrogate pairs beyond the
basic multilingual plane). -/
def jsonEscapeChar (c : Char) : List Char :=
  if c = '\\' then ['\\', '\\']
  else if c = '"' then ['\\', '"']
  else if c = Char.ofNat 8 then ['\\', 'b']
  else if c = Char.ofNat 12 then ['\\', 'f']
  else if c = '\n' then ['\\', 'n']
  else if c = Char.ofNat 13 then ['\\', 'r']
  else if c = '\t' then ['\\', 't']
  else if 0x20 ≤ c.toNat ∧ c.toNat ≤ 0x7e then [c]
  else if c.toNat < 0x10000 then '\\' :: 'u' :: hex4 c.toNat
  else
    let n := c.toNat - 0x10000
    '\\' :: 'u' :: hex4 (0xd800 + (n >>> 10)) ++ '\\' :: 'u' :: hex4 (0xdc00 + (n &&& 0x3ff))

/-- A JSON string literal: quotes around the escaped characters. -/
def jsonStr (s : String) : String :=
  String.mk ('"' :: s.data.foldr (fun c acc => jsonEscapeChar c ++ acc) ['"'])

/-! ## `fim_agent.py` — data structures -/

/-- The `FIMEvent` dataclass of `fim_agent.py`, fields in declaration
order.  `ai_risk_score` is a small non-negative int in the source
(`RISK_MAP` values), so it is a `Nat` here. -/
structure FIMEvent where
  event_id : String
  timestamp : String
  event_type : String
  file_path : String
  hash_before : String
  hash_after : String
  ai_risk_score : Nat
  mitre_technique : String
  user : String
  process_name : String
  host : String
  site : String
  reason : String
  integrity_chain : String
  deriving DecidableEq, Repr

/-! ## `EventLogger` — integrity chaining (`fim_agent.py` lines 111-143) -/

/-- `json.dumps(asdict(event), sort_keys=True)`: the canonical
serialization used by `EventLogger._next_chain`.  `asdict` includes every
dataclass field, `integrity_chain` among them (with whatever value the
event carries at that point), and `sort_keys=True` emits the fixed field
set in sorted key order with the default `", "` and `": "` separators. -/
def canonicalJson (e : FIMEvent) : String :=
  "\x7b\"ai_risk_score\": " ++ toString e.ai_risk_score ++
  ", \"event_id\": " ++ jsonStr e.event_id ++
  ", \"event_type\": " ++ jsonStr e.event_type ++
  ", \"file_path\": " ++ jsonStr e.file_path ++
  ", \"hash_after\": " ++ jsonStr e.hash_after ++
  ", \"hash_before\": " ++ jsonStr e.hash_before ++
  ", \"host\": " ++ jsonStr e.host ++
  ", \"integrity_chain\": " ++ jsonStr e.integrity_chain ++
  ", \"mitre_technique\": " ++ jsonStr e.mitre_technique ++
  ", \"process_name\": " ++ jsonStr e.process_name ++
  ", \"reason\": " ++ jsonStr e.reason ++
  ", \"site\": " ++ jsonStr e.site ++
  ", \"timestamp\": " ++ jsonStr e.timestamp ++
  ", \"user\": " ++ jsonStr e.user ++ "\x7d"

/-- Modelled from the spec: the canonical serialization the specification
describes — JSON with sorted keys over the record's fields *excluding*
`chain_value` (`integrity_chain`).  Used only to compare the spec's
chaining formula with the code's. -/
def canonicalJsonNoChain (e : FIMEvent) : String :=
  "\x7b\"ai_risk_score\": " ++ toString e.ai_risk_score ++
  ", \"event_id\": " ++ jsonStr e.event_id ++
  ", \"event_type\": " ++ jsonStr e.event_type ++
  ", \"file_path\": " ++ jsonStr e.file_path ++
  ", \"hash_after\": " ++ jsonStr e.hash_after ++
  ", \"hash_before\": " ++ jsonStr e.hash_before ++
  ", \"host\": " ++ jsonStr e.host ++
  ", \"mitre_technique\": " ++ jsonStr e.mitre_technique ++
  ", \"process_name\": " ++ jsonStr e.process_name ++
  ", \"reason\": " ++ jsonStr e.reason ++
  ", \"site\": " ++ jsonStr e.site ++
  ", \"timestamp\": " ++ jsonStr e.timestamp ++
  ", \"user\": " ++ jsonStr e.user ++ "\x7d"

/-- `EventLogger._next_chain`: SHA-256 hex digest of the previous chain
value's UTF-8 bytes followed by the canonical serialization's UTF-8
bytes. -/
def next_chain (last_chain_hash : String) (payload : FIMEvent) : String :=
  Sha256.sha256Hex (utf8Bytes last_chain_hash ++ utf8Bytes (canonicalJson payload))

/-- `EventLogger.log`, one call as a state transformer: the appended
record (payload with `integrity_chain` overwritten by `_next_chain`,
which reads the payload *before* the overwrite) and the updated
`last_chain_hash`. -/
def logEvent (last_chain_hash : String) (e : FIMEvent) : FIMEvent × String :=
  let c := next_chain last_chain_hash e
  ({ e with integrity_chain := c }, c)

/-- The records appended by logging a sequence of events starting from a
given `last_chain_hash`. -/
def chainRecords (last_chain_hash : String) : List FIMEvent → List FIMEvent
  | [] => []
  | e :: es =>
      let r := logEvent last_chain_hash e
      r.1 :: chainRecords r.2 es

/-! ## `EventLogger._load_last_chain` (`fim_agent.py` lines 116-131)

The byte-level tail read is abstracted to the list of lines the read
yields, and `json.loads` of one line to an oracle constructor: a line is
blank (`line.strip()` falsy), fails to parse as a JSON object (so that
`json.loads`/`.get` raises and the surrounding `except` returns `""`),
or is an object with an optional `integrity_chain` string. -/

/-- One line of the log tail, as `_load_last_chain` can observe it. -/
inductive LogLine where
  | blank
  | invalid
  | record (chain : Option String)
  deriving DecidableEq, Repr

/-- `EventLogger._load_last_chain` walking the tail lines in reverse:
skip blank lines; the first non-blank line either parses (result is its
`integrity_chain`, defaulting to `""`) or raises (result `""`). -/
def scanTail : List LogLine → String
  | [] => ""
  | .blank :: rest => scanTail rest
  | .invalid :: _ => ""
  | .record c :: _ => c.getD ""

/-- `EventLogger._load_last_chain`: `none` is an absent log file. -/
def load_last_chain (file : Option (List LogLine)) : String :=
  match file with
  | none => ""
  | some lines => scanTail lines.reverse

/-! ## `fim_agent.py` — baseline store and change detection -/

/-- The `FileState` dataclass.  `mtime` is a float in the source; it is
only ever stored and copied, never computed with, so it is embedded as an
integer timestamp. -/
structure FileState where
  path : String
  hash : String
  mtime : Int
  deriving DecidableEq, Repr

/-- A Python dict keyed by strings, as an association list. -/
def Dict (α : Type) : Type := List (String × α)

/-- Dict lookup (`d[k]` / `k in d`), first binding wins. -/
def dictGet {α : Type} : Dict α → String → Option α
  | [], _ => none
  | (k, v) :: rest, key => if k = key then some v else dictGet rest key

/-- `d.get(key, default)` for a dict with a fixed key set, as
`RISK_MAP.get` / `MITRE_MAP.get` / `action_map.get` use it. -/
def pyGet {α : Type} (d : Dict α) (key : String) (default : α) : α :=
  (dictGet d key).getD default

/-- The keys of a dict, in insertion order. -/
def dictKeys {α : Type} (d : Dict α) : List String := d.map Prod.fst

/-- The in-memory FileState store: path → FileState. -/
def Store : Type := Dict FileState

/-- `MITRE_MAP` of `fim_agent.py`. -/
def MITRE_MAP : Dict String := [("create", "T1059"), ("modify", "T1565"), ("delete", "T1070")]

/-- `RISK_MAP` of `fim_agent.py`. -/
def RISK_MAP : Dict Nat := [("create", 40), ("modify", 60), ("delete", 70)]

/-- The deterministic fields of an event built by `FIMMonitor._make_event`
(`event_id`, `timestamp` and the environment labels are supplied by the
runtime and carry no content relevant to change detection). -/
structure ChangeEvent where
  event_type : String
  file_path : String
  hash_before : String
  hash_after : String
  ai_risk_score : Nat
  mitre_technique : String
  reason : String
  deriving DecidableEq, Repr

/-- `FIMMonitor._make_event`, restricted to its deterministic fields. -/
def make_event (event_type path old_hash new_hash reason : String) : ChangeEvent :=
  { event_type := event_type
    file_path := path
    hash_before := old_hash
    hash_after := new_hash
    ai_risk_score := pyGet RISK_MAP event_type 30
    mitre_technique := pyGet MITRE_MAP event_type "T0000"
    reason := reason }

/-- `FIMMonitor._detect_changes`: create events for paths new in the
snapshot, delete events for paths gone from it, modify events for common
paths whose hashes differ.  The Python set iterations are embedded as
filters over the snapshot/store key lists; membership of a path in a dict
is `dictGet` success. -/
def detect_changes (states snapshot : Store) : List ChangeEvent :=
  let created := (dictKeys snapshot).filter fun p => (dictGet states p).isNone
  let deleted := (dictKeys states).filter fun p => (dictGet snapshot p).isNone
  let maybe_modified := (dictKeys snapshot).filter fun p => (dictGet states p).isSome
  created.filterMap (fun p => (dictGet snapshot p).map fun fs =>
      make_event "create" p "-" fs.hash "New file observed; validate change control.")
  ++ deleted.filterMap (fun p => (dictGet states p).map fun old =>
      make_event "delete" p old.hash "-" "File removed; check for indicator removal or cleanup.")
  ++ maybe_modified.filterMap (fun p =>
      match dictGet states p, dictGet snapshot p with
      | some old, some cur =>
          if old.hash ≠ cur.hash then
            some (make_event "modify" p old.hash cur.hash
              "Hash drift detected; confirm authorized change.")
          else none
      | _, _ => none)

/-! ## `save_baseline` / `load_baseline` (`fim_agent.py` lines 78-92) -/

/-- One entry of the persisted baseline JSON object. -/
structure BaselineEntry where
  hash : String
  mtime : Int
  deriving DecidableEq, Repr

/-- `save_baseline`: the JSON object written to the baseline file, as a
dict path → `{hash, mtime}`. -/
def save_baseline (states : Store) : Dict BaselineEntry :=
  states.map fun p => (p.1, { hash := p.2.hash, mtime := p.2.mtime })

/-- `load_baseline` on an existing file: rebuild `FileState` values with
`path` taken from the key. -/
def load_baseline (data : Dict BaselineEntry) : Store :=
  data.map fun p => (p.1, { path := p.1, hash := p.2.hash, mtime := p.2.mtime })

/-! ## `FIMMonitor.run` — one poll cycle (`fim_agent.py` lines 288-295) -/

/-- The body of the `while True` loop in `FIMMonitor.run`, given the
snapshot the scanner returned this cycle: when `_detect_changes` produced
no events, both the in-memory store and the persisted baseline file are
untouched; otherwise the store is replaced by the snapshot and
`save_baseline` rewrites the file.  (Logging of the events themselves is
the `EventLogger` model above.) -/
def pollCycle (states : Store) (baselineFile : Option (Dict BaselineEntry))
    (snapshot : Store) : Store × Option (Dict BaselineEntry) :=
  let events := detect_changes states snapshot
  if events.isEmpty then (states, baselineFile)
  else (snapshot, some (save_baseline snapshot))

/-! ## `HackstoneClient` (`fim_agent/hackstone_client.py`)

The `queue.Queue` is a FIFO list, head = oldest.  `max_queue_size` is
the `maxsize` handed to `queue.Queue`; the queue is full exactly when
`0 < maxsize ≤ qsize`, matching Python's `Queue.full`. -/

namespace HackstoneClient

/-- `HackstoneClient.enqueue`: when the queue is full, `get_nowait` the
oldest payload (the `except queue.Empty: pass` branch is unreachable,
a full queue being non-empty), then `put_nowait` the new one at the
tail.  Non-blocking in the source; a total function here. -/
def enqueue {α : Type} (max_queue_size : Nat) (q : List α) (e : α) : List α :=
  if 0 < max_queue_size ∧ max_queue_size ≤ q.length then q.tail ++ [e] else q ++ [e]

/-- `HackstoneClient._dequeue_batch`: pop with `get_nowait` until
`batch_size` payloads are drained or the queue is empty — the first
`batch_size` entries, and the remaining queue. -/
def dequeue_batch {α : Type} (batch_size : Nat) (q : List α) : List α × List α :=
  (q.take batch_size, q.drop batch_size)

/-- The outcome of `session.post` in `_flush`: an HTTP status code, or a
raised transport exception. -/
inductive PostOutcome where
  | status (code : Nat)
  | failure
  deriving DecidableEq, Repr

/-- `HackstoneClient._flush`: drain a batch; an empty batch is a no-op;
a 2xx response discards the batch; a non-2xx response or an exception
re-enqueues every payload of the batch, in batch order, through
`enqueue`.  The `except Exception` makes the source total — so is this
function: delivery failure never escapes `_flush`. -/
def flush {α : Type} (max_queue_size batch_size : Nat) (q : List α)
    (resp : PostOutcome) : List α :=
  let batch := (dequeue_batch batch_size q).1
  let rest := (dequeue_batch batch_size q).2
  if batch.isEmpty then q
  else
    match resp with
    | .status code =>
        if 200 ≤ code ∧ code < 300 then rest
        else batch.foldl (enqueue max_queue_size) rest
    | .failure => batch.foldl (enqueue max_queue_size) rest

/-- An operation on the delivery queue: a producer `enqueue` or a
consumer `get_nowait` (which on the empty queue raises `queue.Empty`,
always caught by the callers, leaving the queue empty). -/
inductive QueueOp (α : Type) where
  | enq (e : α)
  | deq

/-- Apply one queue operation. -/
def applyOp {α : Type} (max_queue_size : Nat) (q : List α) : QueueOp α → List α
  | .enq e => enqueue max_queue_size q e
  | .deq => q.tail

/-- Apply a sequence of queue operations, oldest first. -/
def applyOps {α : Type} (max_queue_size : Nat) (q : List α) (ops : List (QueueOp α)) : List α :=
  ops.foldl (applyOp max_queue_size) q

end HackstoneClient

/-! ## `server.py` — the query HTTP interface -/

/-- One parsed record of the event log as `server.load_events` handles
it: the sort key is `e.get("timestamp", "")`, so only the optional
`timestamp` string is structural; the rest of the JSON object is an
opaque `body`. -/
structure SrvEvent where
  timestamp : Option String
  body : Nat
  deriving DecidableEq, Repr

/-- The sort key `e.get("timestamp", "")`. -/
def tsKey (e : SrvEvent) : String := e.timestamp.getD ""

/-- Python's `str` comparison: lexicographic on code points. -/
def strLe : List Char → List Char → Bool
  | [], _ => true
  | _ :: _, [] => false
  | a :: as, b :: bs =>
      if a.toNat < b.toNat then true
      else if b.toNat < a.toNat then false
      else strLe as bs

/-- The sort order of `events.sort(key=lambda e: e.get("timestamp", ""))`. -/
def tsLe (a b : SrvEvent) : Prop := strLe (tsKey a).data (tsKey b).data = true

instance (a b : SrvEvent) : Decidable (tsLe a b) := by
  unfold tsLe
  infer_instance

/-- `events.sort(key=lambda e: e.get("timestamp", ""))`: Python's sort
is stable, so it agrees with a stable insertion sort by the same key. -/
def sortByTimestamp (evs : List SrvEvent) : List SrvEvent :=
  List.insertionSort tsLe evs

/-- Python's `l[-limit:]` over an `int` limit: the last `limit` entries
when `limit > 0`, everything from index `-limit` on otherwise. -/
def lastSlice {α : Type} (l : List α) (limit : Int) : List α :=
  if 0 < limit then l.drop (l.length - limit.toNat) else l.drop (-limit).toNat

/-- `server.load_events`: `none` is an absent log file
(`FileNotFoundError` → `[]`); otherwise the parsed records of the file's
non-blank lines, sorted by timestamp, last `limit` taken. -/
def load_events (log : Option (List SrvEvent)) (limit : Int) : List SrvEvent :=
  match log with
  | none => []
  | some evs => lastSlice (sortByTimestamp evs) limit

/-- Python whitespace stripped by `str.strip()` on ASCII input. -/
def isPyWS (c : Char) : Bool :=
  c = ' ' || c = '\t' || c = '\n' || c = Char.ofNat 13 || c = Char.ofNat 11 || c = Char.ofNat 12

/-- Digit-sequence parser of Python's `int(str)` after the sign:
decimal digits, with single underscores allowed only between digits.
`afterDigit` records whether the previous character was a digit. -/
def pyDigits : List Char → Bool → Nat → Option Nat
  | [], afterDigit, acc => if afterDigit then some acc else none
  | c :: rest, afterDigit, acc =>
      if '0' ≤ c ∧ c ≤ '9' then pyDigits rest true (acc * 10 + (c.toNat - 48))
      else if c = '_' ∧ afterDigit then pyDigits rest false acc
      else none

/-- Python's `int(s)` on ASCII input: strip whitespace, optional sign,
digits; `none` is a raised `ValueError`. -/
def pyInt (s : String) : Option Int :=
  let cs := ((s.data.dropWhile isPyWS).reverse.dropWhile isPyWS).reverse
  match cs with
  | '+' :: rest => (pyDigits rest false 0).map Int.ofNat
  | '-' :: rest => (pyDigits rest false 0).map fun n => -(n : Int)
  | rest => (pyDigits rest false 0).map Int.ofNat

/-- An HTTP response body written by `Handler._write_json`. -/
inductive HttpBody where
  | err (body : String)
  | events (evs : List SrvEvent)
  deriving DecidableEq, Repr

/-- `Handler.do_GET`: status code and body.  `limitParam` is the first
`limit` query value when present (`params.get("limit", ["100"])[0]`);
`int` failure falls back to 100; the result is clamped with
`max(1, min(limit, 500))`. -/
def do_GET (path : String) (limitParam : Option String)
    (log : Option (List SrvEvent)) : Nat × HttpBody :=
  if path ≠ "/events" then (404, .err "\x7b\"error\": \"not found\"\x7d")
  else
    let limit : Int := (pyInt (limitParam.getD "100")).getD 100
    let limit : Int := max 1 (min limit 500)
    (200, .events (load_events log limit))

/-! ## `fim_agent/main.py` — `to_hackstone_event` action normalization -/

/-- `action_map` of `to_hackstone_event`. -/
def action_map : Dict String :=
  [("created", "create"), ("create", "create"), ("modified", "modify"),
   ("modify", "modify"), ("deleted", "delete"), ("delete", "delete")]

/-- `str(x)` on a possibly-absent string (`str(None)` is `"None"`). -/
def strOfPy : Option String → String
  | none => "None"
  | some s => s

/-- `local_event.get("action") or local_event.get("event_type")`: the
empty string and `None` are falsy, anything else short-circuits. -/
def effective_action (action event_type : Option String) : Option String :=
  match action with
  | some s => if s = "" then event_type else some s
  | none => event_type

/-- `str.lower()`, character by character (the Python and Lean per-char
lowercasing agree on the ASCII range the `action_map` keys live in). -/
def pyLower (s : String) : String := String.mk (s.data.map Char.toLower)

/-- The `action` field `to_hackstone_event` emits:
`action_map.get(str(action).lower(), "modify")`. -/
def to_hackstone_action (action event_type : Option String) : String :=
  pyGet action_map (pyLower (strOfPy (effective_action action event_type))) "modify"

/-- The chain value preceding record `n` of a record list: the seed for
record 0 (the empty string on a fresh log), else record `n-1`'s
`integrity_chain`. -/
def prevChain (seed : String) (recs : List FIMEvent) : Nat → String
  | 0 => seed
  | n + 1 => ((recs.get? n).map FIMEvent.integrity_chain).getD ""

/-- A concrete event as `FIMMonitor._make_event` builds it: the
`integrity_chain` field is the empty string until `EventLogger.log`
assigns it. -/
def sampleEvent : FIMEvent :=
  { event_id := "e1", timestamp := "t", event_type := "create", file_path := "/a",
    hash_before := "-", hash_after := "h", ai_risk_score := 40,
    mitre_technique := "T1059", user := "u", process_name := "p",
    host := "lo", site := "prod", reason := "r", integrity_chain := "" }

/-! ## Helper lemmas -/

/-- A `dictGet` hit means the key is among the dict's keys. -/
theorem dictGet_some_mem_keys {α : Type} (d : Dict α) (k : String) (v : α)
    (h : dictGet d k = some v) : k ∈ dictKeys d := by
  induction d with
  | nil => simp [dictGet] at h
  | cons hd tl ih =>
      rw [dictGet] at h
      by_cases hk : hd.1 = k
      · simp [dictKeys, hk]
      · rw [if_neg hk] at h
        simp [dictKeys] at ih ⊢
        exact Or.inr (ih h)

/-- Enqueueing into a queue with spare room is a plain append. -/
theorem enqueue_not_full {α : Type} (m : Nat) (q : List α) (e : α)
    (h : q.length < m) : HackstoneClient.enqueue m q e = q ++ [e] := by
  unfold HackstoneClient.enqueue
  rw [if_neg]
  rintro ⟨-, hle⟩
  omega

/-- Re-enqueueing a batch into a queue with room for all of it appends it
in order, with no eviction. -/
theorem foldl_enqueue_no_evict {α : Type} (m : Nat) (batch : List α) :
    ∀ rest : List α, rest.length + batch.length ≤ m →
      batch.foldl (HackstoneClient.enqueue m) rest = rest ++ batch := by
  induction batch with
  | nil => intro rest _; simp
  | cons b bs ih =>
      intro rest h
      have hb : HackstoneClient.enqueue m rest b = rest ++ [b] :=
        enqueue_not_full m rest b (by simp at h; omega)
      rw [List.foldl_cons, hb, ih (rest ++ [b]) (by simp; simp at h; omega)]
      simp

/-! ## The claims -/

/-- Claim C8: saving a FileState store with `save_baseline` and reloading
the file with `load_baseline` yields a store with the identical
path → hash mapping. -/
theorem save_load_roundtrip (states : Store) (p : String) :
    (dictGet (load_baseline (save_baseline states)) p).map FileState.hash =
      (dictGet states p).map FileState.hash := by
  induction states with
  | nil => rfl
  | cons hd tl ih =>
      obtain ⟨k, fs⟩ := hd
      simp only [save_baseline, load_baseline, List.map_cons] at ih ⊢
      simp only [dictGet]
      by_cases hk : k = p
      · simp [hk]
      · rw [if_neg hk, if_neg hk]
        exact ih

/-- Claim C3: `HackstoneClient.enqueue` at capacity removes the oldest
payload (the queue head) before inserting the new one; an enqueue never
grows the queue beyond `max_queue_size`, always leaves the new payload
as the newest (last) element, and any sequence of enqueue and dequeue
operations keeps the length within `max_queue_size`.  (Non-blocking is
the shape of the embedding: `enqueue` is a total function, the source
using only `get_nowait`/`put_nowait`.) -/
theorem enqueue_drop_oldest {α : Type} (max_queue_size : Nat) (h : 0 < max_queue_size) :
    (∀ (q : List α) (e : α), q.length = max_queue_size →
        HackstoneClient.enqueue max_queue_size q e = q.tail ++ [e]) ∧
    (∀ (q : List α) (e : α), q.length ≤ max_queue_size →
        (HackstoneClient.enqueue max_queue_size q e).length ≤ max_queue_size) ∧
    (∀ (q : List α) (e : α), (HackstoneClient.enqueue max_queue_size q e).getLast? = some e) ∧
    (∀ (ops : List (HackstoneClient.QueueOp α)) (q : List α), q.length ≤ max_queue_size →
        (HackstoneClient.applyOps max_queue_size q ops).length ≤ max_queue_size) := by
  have hlen : ∀ (q : List α) (e : α), q.length ≤ max_queue_size →
      (HackstoneClient.enqueue max_queue_size q e).length ≤ max_queue_size := by
    intro q e hq
    unfold HackstoneClient.enqueue
    split
    · next hc => simp [List.length_tail]; omega
    · next hc =>
        have : q.length < max_queue_size := by
          rcases Nat.lt_or_ge q.length max_queue_size with h' | h'
          · exact h'
          · exact absurd ⟨h, h'⟩ hc
        simp
        omega
  refine ⟨?_, hlen, ?_, ?_⟩
  · intro q e hq
    unfold HackstoneClient.enqueue
    rw [if_pos ⟨h, le_of_eq hq.symm⟩]
  · intro q e
    unfold HackstoneClient.enqueue
    split <;> simp
  · intro ops
    induction ops with
    | nil => intro q hq; exact hq
    | cons op rest ih =>
        intro q hq
        show (HackstoneClient.applyOps _ (HackstoneClient.applyOp _ q op) rest).length ≤ _
        refine ih _ ?_
        cases op with
        | enq e => exact hlen q e hq
        | deq => simp [HackstoneClient.applyOp, List.length_tail]; omega

/-- Witness for C3 at `max_queue_size = 2`. -/
theorem enqueue_drop_oldest_witness :
    HackstoneClient.enqueue 2 [1, 2] 3 = [2, 3] ∧
      (HackstoneClient.applyOps 2 ([] : List Nat)
        [.enq 1, .enq 2, .enq 3, .deq, .enq 4]).length ≤ 2 :=
  ⟨(enqueue_drop_oldest 2 (by decide)).1 [1, 2] 3 (by decide),
   (enqueue_drop_oldest 2 (by decide)).2.2.2 [.enq 1, .enq 2, .enq 3, .deq, .enq 4] []
     (by decide)⟩

/-- Claim C4: when `_flush` drains a batch and the POST fails (a raised
transport error or a non-2xx status), every payload of that batch is
re-enqueued through the drop-oldest `enqueue` — the resulting queue is
the remaining queue followed by the whole batch, so each drained payload
is in the queue again.  (Never fatal is the shape of the embedding:
`flush` is a total function, the source catching every exception.) -/
theorem flush_requeues_failed_batch {α : Type} (max_queue_size batch_size : Nat)
    (q : List α) (resp : HackstoneClient.PostOutcome)
    (hq : q.length ≤ max_queue_size)
    (hfail : resp = .failure ∨
      ∃ code, resp = .status code ∧ ¬ (200 ≤ code ∧ code < 300)) :
    HackstoneClient.flush max_queue_size batch_size q resp =
        q.drop batch_size ++ q.take batch_size ∧
      ∀ p ∈ q.take batch_size,
        p ∈ HackstoneClient.flush max_queue_size batch_size q resp := by
  have hroom : (q.drop batch_size).length + (q.take batch_size).length ≤ max_queue_size := by
    rw [List.length_drop, List.length_take]; omega
  have hfold := foldl_enqueue_no_evict max_queue_size (q.take batch_size)
    (q.drop batch_size) hroom
  have hmain : HackstoneClient.flush max_queue_size batch_size q resp =
      q.drop batch_size ++ q.take batch_size := by
    by_cases hb : (q.take batch_size).isEmpty
    · have hnil : q.take batch_size = [] := by simpa [List.isEmpty_iff] using hb
      have hq' : q.drop batch_size = q := by
        rcases List.take_eq_nil_iff.mp hnil with h0 | h0 <;> simp [h0]
      simp [HackstoneClient.flush, HackstoneClient.dequeue_batch, hnil, hq']
    · rcases hfail with hf | ⟨code, hf, hcode⟩
      · subst hf
        simp [HackstoneClient.flush, HackstoneClient.dequeue_batch, hb, hfold]
      · subst hf
        simp [HackstoneClient.flush, HackstoneClient.dequeue_batch, hb, hcode, hfold]
  exact ⟨hmain, fun p hp => hmain ▸ List.mem_append.mpr (Or.inr hp)⟩

/-- Witness for C4: a 3-payload queue, batch size 2, transport failure. -/
theorem flush_requeues_failed_batch_witness :
    HackstoneClient.flush 10 2 [1, 2, 3] .failure = [3, 1, 2] ∧
      (1 : Nat) ∈ HackstoneClient.flush 10 2 [1, 2, 3] .failure :=
  let h := flush_requeues_failed_batch 10 2 [1, 2, 3] .failure (by decide) (Or.inl rfl)
  ⟨h.1.trans (by decide), h.2 1 (by decide)⟩

/-- A non-blank line: what `if line.strip():` keeps. -/
def nonBlankLine : LogLine → Bool
  | .blank => false
  | _ => true

/-- The tail scan returns what the first non-blank line (searching from
the end) determines. -/
theorem scanTail_find (L : List LogLine) :
    scanTail L =
      match L.find? nonBlankLine with
      | none => ""
      | some .blank => ""
      | some .invalid => ""
      | some (.record c) => c.getD "" := by
  induction L with
  | nil => rfl
  | cons l rest ih =>
      cases l with
      | blank => simpa [scanTail, List.find?, nonBlankLine] using ih
      | invalid => simp [scanTail, List.find?, nonBlankLine]
      | record c => simp [scanTail, List.find?, nonBlankLine]

/-- Claim C5: on `EventLogger` construction, `last_chain_hash` is the
empty string when the log file is absent or has no non-blank line;
otherwise it is the `integrity_chain` of the last (non-blank) record of
the tail when that record parses, defaulting to the empty string — and
when that record cannot be parsed the result falls back to the empty
string instead of construction failing. -/
theorem load_last_chain_spec :
    load_last_chain none = "" ∧
    ∀ lines : List LogLine,
      load_last_chain (some lines) =
        match lines.reverse.find? nonBlankLine with
        | none => ""
        | some .blank => ""
        | some .invalid => ""
        | some (.record c) => c.getD "" :=
  ⟨rfl, fun lines => scanTail_find lines.reverse⟩

/-- Claim C7: a poll cycle that produced no events leaves both the
in-memory states mapping and the persisted baseline file unchanged; a
cycle with at least one event replaces the states with the snapshot and
persists it via `save_baseline`. -/
theorem pollCycle_frame (states : Store) (baselineFile : Option (Dict BaselineEntry))
    (snapshot : Store) :
    (detect_changes states snapshot = [] →
        pollCycle states baselineFile snapshot = (states, baselineFile)) ∧
    (detect_changes states snapshot ≠ [] →
        pollCycle states baselineFile snapshot =
          (snapshot, some (save_baseline snapshot))) := by
  constructor
  · intro h
    simp [pollCycle, h]
  · intro h
    simp [pollCycle, h]

/-- Witness for C7: an idle cycle and a cycle with one create event. -/
theorem pollCycle_frame_witness :
    pollCycle [] none [] = ([], none) ∧
      pollCycle [] none [("/a", ⟨"/a", "h1", 0⟩)] =
        ([("/a", ⟨"/a", "h1", 0⟩)], some (save_baseline [("/a", ⟨"/a", "h1", 0⟩)])) :=
  ⟨(pollCycle_frame [] none []).1 (by decide),
   (pollCycle_frame [] none [("/a", ⟨"/a", "h1", 0⟩)]).2 (by decide)⟩

/-- Claim C9: a `GET /events` request whose `limit` query value is
present but not a parseable integer is served as if `limit` were 100,
with status 200 rather than an error. -/
theorem bad_limit_defaults_to_100 (s : String) (log : Option (List SrvEvent))
    (h : pyInt s = none) :
    do_GET "/events" (some s) log = (200, .events (load_events log 100)) := by
  simp only [do_GET, Option.getD_some, h, Option.getD_none, if_neg]
  norm_num

/-- Witness for C9: `limit=abc` over an absent log. -/
theorem bad_limit_defaults_to_100_witness :
    do_GET "/events" (some "abc") none = (200, .events (load_events none 100)) :=
  bad_limit_defaults_to_100 "abc" none (by decide)

/-- Claim C10: when the effective action value (the `action` field,
falling back to `event_type` when falsy) lowercases to none of
create/created/modify/modified/delete/deleted, `to_hackstone_event`
normalizes the outgoing action to `"modify"` — in particular when both
fields are absent. -/
theorem unknown_action_normalizes_to_modify (action event_type : Option String)
    (h : pyLower (strOfPy (effective_action action event_type)) ∉
      ["create", "created", "modify", "modified", "delete", "deleted"]) :
    to_hackstone_action action event_type = "modify" := by
  simp only [List.mem_cons, List.not_mem_nil, or_false, not_or] at h
  obtain ⟨h1, h2, h3, h4, h5, h6⟩ := h
  simp only [to_hackstone_action, pyGet, action_map, dictGet]
  rw [if_neg (fun he => h2 he.symm), if_neg (fun he => h1 he.symm),
    if_neg (fun he => h4 he.symm), if_neg (fun he => h3 he.symm),
    if_neg (fun he => h6 he.symm), if_neg (fun he => h5 he.symm)]
  rfl

/-- Witness for C10: both fields absent (`str(None).lower()` is
`"none"`, not in the map). -/
theorem unknown_action_normalizes_to_modify_witness :
    to_hackstone_action none none = "modify" :=
  unknown_action_normalizes_to_modify none none (by decide)

/-- Claim C2: `_detect_changes` emits, as a set, exactly one create event
(`hash_before = "-"`) per path new in the snapshot, one delete event
(`hash_after = "-"`) per path gone from it, one modify event carrying
both hashes per common path whose hashes differ — and no event at all
for a common path with an unchanged hash, whatever its `mtime` did. -/
theorem detect_changes_spec (states snapshot : Store) :
    (∀ e : ChangeEvent,
      e ∈ detect_changes states snapshot ↔
        ((∃ p fs, dictGet states p = none ∧ dictGet snapshot p = some fs ∧
            e = make_event "create" p "-" fs.hash
              "New file observed; validate change control.") ∨
         (∃ p old, dictGet states p = some old ∧ dictGet snapshot p = none ∧
            e = make_event "delete" p old.hash "-"
              "File removed; check for indicator removal or cleanup.") ∨
         (∃ p old cur, dictGet states p = some old ∧ dictGet snapshot p = some cur ∧
            old.hash ≠ cur.hash ∧
            e = make_event "modify" p old.hash cur.hash
              "Hash drift detected; confirm authorized change."))) ∧
    (∀ p old cur, dictGet states p = some old → dictGet snapshot p = some cur →
      old.hash = cur.hash →
      ∀ e ∈ detect_changes states snapshot, e.file_path ≠ p) := by
  have hiff : ∀ e : ChangeEvent,
      e ∈ detect_changes states snapshot ↔
        ((∃ p fs, dictGet states p = none ∧ dictGet snapshot p = some fs ∧
            e = make_event "create" p "-" fs.hash
              "New file observed; validate change control.") ∨
         (∃ p old, dictGet states p = some old ∧ dictGet snapshot p = none ∧
            e = make_event "delete" p old.hash "-"
              "File removed; check for indicator removal or cleanup.") ∨
         (∃ p old cur, dictGet states p = some old ∧ dictGet snapshot p = some cur ∧
            old.hash ≠ cur.hash ∧
            e = make_event "modify" p old.hash cur.hash
              "Hash drift detected; confirm authorized change.")) := by
    intro e
    constructor
    · intro he
      simp only [detect_changes, List.mem_append] at he
      rcases he with (hcr | hdel) | hmod
      · rcases List.mem_filterMap.mp hcr with ⟨p, hp, hf⟩
        rcases List.mem_filter.mp hp with ⟨-, hnone⟩
        rcases Option.map_eq_some'.mp hf with ⟨fs, hfs, he'⟩
        exact Or.inl ⟨p, fs, by simpa using hnone, hfs, he'.symm⟩
      · rcases List.mem_filterMap.mp hdel with ⟨p, hp, hf⟩
        rcases List.mem_filter.mp hp with ⟨-, hnone⟩
        rcases Option.map_eq_some'.mp hf with ⟨old, hold, he'⟩
        exact Or.inr (Or.inl ⟨p, old, hold, by simpa using hnone, he'.symm⟩)
      · rcases List.mem_filterMap.mp hmod with ⟨p, hp, hf⟩
        rcases hs : dictGet states p with _ | old
        · rw [hs] at hf; simp at hf
        · rcases hsn : dictGet snapshot p with _ | cur
          · rw [hs, hsn] at hf; simp at hf
          · rw [hs, hsn] at hf
            by_cases hne : old.hash ≠ cur.hash
            · refine Or.inr (Or.inr ⟨p, old, cur, hs, hsn, hne, ?_⟩)
              simpa [hne] using hf.symm
            · simp [hne] at hf
    · intro hcase
      simp only [detect_changes, List.mem_append]
      rcases hcase with ⟨p, fs, h1, h2, he⟩ | ⟨p, old, h1, h2, he⟩ |
        ⟨p, old, cur, h1, h2, hne, he⟩
      · subst he
        refine Or.inl (Or.inl (List.mem_filterMap.mpr
          ⟨p, List.mem_filter.mpr ⟨dictGet_some_mem_keys _ _ _ h2, by simp [h1]⟩, ?_⟩))
        simp [h2]
      · subst he
        refine Or.inl (Or.inr (List.mem_filterMap.mpr
          ⟨p, List.mem_filter.mpr ⟨dictGet_some_mem_keys _ _ _ h1, by simp [h2]⟩, ?_⟩))
        simp [h1]
      · subst he
        refine Or.inr (List.mem_filterMap.mpr
          ⟨p, List.mem_filter.mpr ⟨dictGet_some_mem_keys _ _ _ h2, by simp [h1]⟩, ?_⟩)
        rw [h1, h2]
        simp [hne]
  refine ⟨hiff, ?_⟩
  intro p old cur h1 h2 hhash e he hep
  rcases (hiff e).mp he with ⟨q, fs, g1, g2, ge⟩ | ⟨q, o2, g1, g2, ge⟩ |
    ⟨q, o2, c2, g1, g2, gne, ge⟩
  · subst ge
    simp only [make_event] at hep
    rw [hep] at g1
    rw [h1] at g1
    cases g1
  · subst ge
    simp only [make_event] at hep
    rw [hep] at g2
    rw [h2] at g2
    cases g2
  · subst ge
    simp only [make_event] at hep
    rw [hep] at g1 g2
    rw [h1] at g1
    rw [h2] at g2
    exact gne (by
      rw [Option.some.injEq] at g1 g2
      rw [← g1, ← g2]
      exact hhash)

/-- Witness for C2: one unchanged file (only its mtime moved) and one
new file — exactly the create event is emitted. -/
theorem detect_changes_spec_witness :
    make_event "create" "/b" "-" "h2" "New file observed; validate change control." ∈
      detect_changes [("/a", ⟨"/a", "h1", 0⟩)]
        [("/a", ⟨"/a", "h1", 5⟩), ("/b", ⟨"/b", "h2", 5⟩)] :=
  ((detect_changes_spec [("/a", ⟨"/a", "h1", 0⟩)]
      [("/a", ⟨"/a", "h1", 5⟩), ("/b", ⟨"/b", "h2", 5⟩)]).1 _).mpr
    (Or.inl ⟨"/b", ⟨"/b", "h2", 5⟩, by decide, by decide, by decide⟩)

/-- The head step of `strLe`: strictly smaller head, or equal heads and
comparable tails. -/
theorem strLe_cons (a b : Char) (as bs : List Char) :
    strLe (a :: as) (b :: bs) = true ↔
      a.toNat < b.toNat ∨ (a.toNat = b.toNat ∧ strLe as bs = true) := by
  by_cases h1 : a.toNat < b.toNat
  · simp [strLe, h1]
  · by_cases h2 : b.toNat < a.toNat
    · simp [strLe, h1, h2]
      omega
    · have he : a.toNat = b.toNat := by omega
      simp [strLe, h1, h2, he]

/-- `strLe` is total. -/
theorem strLe_total : ∀ as bs : List Char, strLe as bs = true ∨ strLe bs as = true := by
  intro as
  induction as with
  | nil => intro bs; exact Or.inl rfl
  | cons a as ih =>
      intro bs
      cases bs with
      | nil => exact Or.inr rfl
      | cons b bs =>
          rcases Nat.lt_trichotomy a.toNat b.toNat with h | h | h
          · exact Or.inl ((strLe_cons a b as bs).mpr (Or.inl h))
          · rcases ih bs with ht | ht
            · exact Or.inl ((strLe_cons a b as bs).mpr (Or.inr ⟨h, ht⟩))
            · exact Or.inr ((strLe_cons b a bs as).mpr (Or.inr ⟨h.symm, ht⟩))
          · exact Or.inr ((strLe_cons b a bs as).mpr (Or.inl h))

/-- `strLe` is transitive. -/
theorem strLe_trans : ∀ as bs cs : List Char,
    strLe as bs = true → strLe bs cs = true → strLe as cs = true := by
  intro as
  induction as with
  | nil => intros; rfl
  | cons a as ih =>
      intro bs cs h1 h2
      cases bs with
      | nil => simp [strLe] at h1
      | cons b bs =>
          cases cs with
          | nil => simp [strLe] at h2
          | cons c cs =>
              rw [strLe_cons] at h1 h2 ⊢
              rcases h1 with h1 | ⟨h1e, h1r⟩ <;> rcases h2 with h2 | ⟨h2e, h2r⟩
              · exact Or.inl (by omega)
              · exact Or.inl (by omega)
              · exact Or.inl (by omega)
              · exact Or.inr ⟨by omega, ih bs cs h1r h2r⟩

/-- Claim C6: `do_GET` answers any path other than `/events` with a 404
JSON error body; `/events` with an integer `limit=N` is answered 200
with the last `min(max(N, 1), 500)` records of the timestamp-sorted log
(100 when the parameter is absent), and the returned record list is
ascending by timestamp. -/
theorem do_GET_spec (path : String) (limitParam : Option String)
    (log : Option (List SrvEvent)) :
    (path ≠ "/events" →
        do_GET path limitParam log =
          (404, .err "\x7b\"error\": \"not found\"\x7d")) ∧
    (∀ s n, limitParam = some s → pyInt s = some n →
        do_GET "/events" limitParam log =
          (200, .events (load_events log (min (max n 1) 500)))) ∧
    (do_GET "/events" none log = (200, .events (load_events log 100))) ∧
    (∀ limit : Int, List.Pairwise tsLe (load_events log limit)) := by
  refine ⟨?_, ?_, ?_, ?_⟩
  · intro h
    simp [do_GET, h]
  · intro s n hs hn
    subst hs
    have hclamp : max 1 (min n 500) = min (max n 1) 500 := by omega
    simp [do_GET, hn, hclamp]
  · have h100 : pyInt "100" = some (100 : Int) := by decide
    have hclamp : max (1 : Int) (min 100 500) = 100 := by norm_num
    simp [do_GET, h100, hclamp]
  · intro limit
    match log with
    | none => simp [load_events]
    | some evs =>
        haveI : IsTotal SrvEvent tsLe := ⟨fun a b => strLe_total _ _⟩
        haveI : IsTrans SrvEvent tsLe := ⟨fun _ _ _ g1 g2 => strLe_trans _ _ _ g1 g2⟩
        have hs : List.Sorted tsLe (sortByTimestamp evs) :=
          List.sorted_insertionSort tsLe evs
        show List.Pairwise _ (lastSlice (sortByTimestamp evs) limit)
        unfold lastSlice
        split <;> exact List.Pairwise.sublist (List.drop_sublist _ _) hs

/-- Witness for C6: `limit=2` over a five-record log returns the two
most recent records in ascending timestamp order. -/
theorem do_GET_spec_witness :
    do_GET "/events" (some "2")
        (some [⟨some "t3", 3⟩, ⟨some "t1", 1⟩, ⟨some "t5", 5⟩,
               ⟨some "t2", 2⟩, ⟨some "t4", 4⟩]) =
      (200, .events [⟨some "t4", 4⟩, ⟨some "t5", 5⟩]) :=
  ((do_GET_spec "/events" (some "2")
      (some [⟨some "t3", 3⟩, ⟨some "t1", 1⟩, ⟨some "t5", 5⟩,
             ⟨some "t2", 2⟩, ⟨some "t4", 4⟩])).2.1 "2" 2 rfl (by decide)).trans
    (by decide)

/-- The chain value of every record logged from a given seed:
`sha256(previous chain value ++ canonical serialization of the record's
fields with `integrity_chain` at its pre-log value)`. -/
theorem chainRecords_get (events : List FIMEvent) :
    ∀ (seed : String) (n : Nat) (r : FIMEvent),
      (∀ e ∈ events, e.integrity_chain = "") →
      (chainRecords seed events).get? n = some r →
      r.integrity_chain =
        Sha256.sha256Hex
          (utf8Bytes (prevChain seed (chainRecords seed events) n) ++
           utf8Bytes (canonicalJson { r with integrity_chain := "" })) := by
  induction events with
  | nil =>
      intro seed n r _ hn
      simp [chainRecords] at hn
  | cons e es ih =>
      intro seed n r hin hn
      simp only [chainRecords] at hn ⊢
      cases n with
      | zero =>
          rw [List.get?_cons_zero, Option.some.injEq] at hn
          subst hn
          have he : e.integrity_chain = "" := hin e (List.mem_cons_self e es)
          have hee : { (logEvent seed e).1 with integrity_chain := "" } = e := by
            cases e
            simp_all [logEvent]
          rw [hee]
          rfl
      | succ m =>
          rw [List.get?_cons_succ] at hn
          have hih := ih (logEvent seed e).2 m r
            (fun x hx => hin x (List.mem_cons_of_mem e hx)) hn
          have hprev : prevChain seed
              ((logEvent seed e).1 :: chainRecords (logEvent seed e).2 es) (m + 1) =
              prevChain (logEvent seed e).2 (chainRecords (logEvent seed e).2 es) m := by
            cases m with
            | zero => rfl
            | succ k => rfl
          rw [hprev]
          exact hih

set_option maxRecDepth 100000 in
/-- Counterexample to claim C1 as stated: for the one-event log of
`sampleEvent`, record 0's stored chain value is *not* the SHA-256 digest
of the empty seed followed by the canonical serialization *excluding*
`integrity_chain` — the code serializes all of `asdict(event)`, the
`integrity_chain` key (value `""`) included. -/
theorem chain_spec_formula_cex :
    ¬ ∀ r, (chainRecords "" [sampleEvent]).get? 0 = some r →
        r.integrity_chain =
          Sha256.sha256Hex
            (utf8Bytes (prevChain "" (chainRecords "" [sampleEvent]) 0) ++
             utf8Bytes (canonicalJsonNoChain r)) := by
  intro h
  have hr := h (logEvent "" sampleEvent).1 rfl
  revert hr
  decide

/-- Claim C1 (amended): for every event sequence logged through
`EventLogger.log` from the empty seed (events carrying the empty
`integrity_chain` that `_make_event` gives them), record `n`'s stored
chain value is the SHA-256 hex digest of the previous record's chain
value (the empty string when `n = 0`) concatenated with the canonical
JSON serialization (sorted keys) of record `n`'s fields with the
`integrity_chain` key included at its pre-log value, the empty string —
not excluded, as the claim had it. -/
theorem chain_value_formula (events : List FIMEvent)
    (hin : ∀ e ∈ events, e.integrity_chain = "")
    (n : Nat) (r : FIMEvent)
    (hn : (chainRecords "" events).get? n = some r) :
    r.integrity_chain =
      Sha256.sha256Hex
        (utf8Bytes (prevChain "" (chainRecords "" events) n) ++
         utf8Bytes (canonicalJson { r with integrity_chain := "" })) :=
  chainRecords_get events "" n r hin hn

/-- Witness for the amended C1 at the one-event log of `sampleEvent`. -/
theorem chain_value_formula_witness :
    (chainRecords "" [sampleEvent]).get? 0 = some (logEvent "" sampleEvent).1 ∧
    ((logEvent "" sampleEvent).1).integrity_chain =
      Sha256.sha256Hex
        (utf8Bytes (prevChain "" (chainRecords "" [sampleEvent]) 0) ++
         utf8Bytes (canonicalJson
           { (logEvent "" sampleEvent).1 with integrity_chain := "" })) :=
  ⟨rfl, chain_value_formula [sampleEvent] (by decide) 0 (logEvent "" sampleEvent).1 rfl⟩
